import Mathlib

/-!
# Verification of the harmony-ai-planner scheduling core

A shallow embedding of the scheduling algorithms of the repository:

* `compute_free_slots` (src/app/ai_agent/nodes/compute_free_slots.py)
* `TimeSlotFinder.find_free_slots` (src/app/src/time_slot_finder.py)
* `EventDistributor.distribute_events` (src/app/src/event_distributor.py)
* `filter_slots` (src/app/ai_agent/nodes/filter_slots.py)
* `filter_task_slots` (src/app/ai_agent/nodes/filter_task_slots.py)
* `select_slots` (src/app/ai_agent/nodes/select_slots.py)

Instants (Python timezone-aware `datetime` values, normalized to UTC) are
modelled as integers counting seconds.  Durations in minutes are integers.
Python's `int(x.total_seconds() / 60)` truncates toward zero, which is
`Int.tdiv _ 60` on integer second counts.  `datetime.replace(minute=0,
second=0, microsecond=0)` floors an instant to the hour, which on second
counts is `t - t % 3600` (`%` being `Int.emod`, i.e. the floor remainder).
-/

namespace HarmonyPlanner

/-- A free-slot dictionary as passed between agent nodes: the Python code
stores the keys `start`, `end` and `duration_minutes` independently, so the
`durationMinutes` field is *not* derived from `start`/`stop` here (`stop`
stands for the Python key `end`, which is a reserved word in Lean). -/
structure SlotD where
  start : Int
  stop : Int
  durationMinutes : Int
deriving DecidableEq, Repr

/-- `int((b - a).total_seconds() / 60)`: minutes between two instants,
truncated toward zero as Python's `int()` does. -/
def minutesBetween (a b : Int) : Int := (b - a).tdiv 60

/-- Build a slot dictionary whose `duration_minutes` key is computed from the
two instants, as every emission site of `compute_free_slots` does. -/
def mkSlotD (s e : Int) : SlotD := ⟨s, e, minutesBetween s e⟩

/-- `current_time.replace(minute=0, second=0, microsecond=0)`: floor an
instant to the whole hour. -/
def roundDownToHour (t : Int) : Int := t - t % 3600

/-- Python `list.sort(key=lambda x: x[0])`: stable sort of interval pairs by
start instant.  `List.insertionSort` with this relation is stable in the same
way Python's sort is. -/
def sortIntervalsByStart (l : List (Int × Int)) : List (Int × Int) :=
  List.insertionSort (fun a b => a.1 ≤ b.1) l

/-- The sweep loop of `compute_free_slots` (lines 62–73): for each busy
period in order emit a gap slot when the cursor is before the busy start,
then advance the cursor monotonically.  Returns the emitted slots and the
final cursor. -/
def cfsSweep (cursor : Int) : List (Int × Int) → List SlotD × Int
  | [] => ([], cursor)
  | (busyStart, busyEnd) :: rest =>
      let emitted := if cursor < busyStart then [mkSlotD cursor busyStart] else []
      let cursor' := if busyEnd > cursor then busyEnd else cursor
      let next := cfsSweep cursor' rest
      (emitted ++ next.1, next.2)

/-- `compute_free_slots` (src/app/ai_agent/nodes/compute_free_slots.py,
lines 42–91), after the busy periods have been parsed to instant pairs:
sort the busy periods by start, round the cursor down to the hour, sweep,
append a final slot up to `endDate` when time remains, and append one more
whole-range slot when the busy list is empty. -/
def computeFreeSlots (busyPeriods : List (Int × Int)) (startDate endDate : Int) :
    List SlotD :=
  let sorted := sortIntervalsByStart busyPeriods
  let swept := cfsSweep (roundDownToHour startDate) sorted
  let slots := swept.1 ++ (if swept.2 < endDate then [mkSlotD swept.2 endDate] else [])
  slots ++ (if busyPeriods.isEmpty then [mkSlotD startDate endDate] else [])

/-- `TimeSlot` of src/app/src/time_slot_finder.py.  Its `duration_minutes`
field is always recomputed from `start` and `end` by `__post_init__`, so it
is a derived function here rather than a stored field. -/
structure TimeSlot where
  start : Int
  stop : Int
deriving DecidableEq, Repr

/-- `TimeSlot.__post_init__`: `int((end - start).total_seconds() / 60)`. -/
def TimeSlot.durationMinutes (s : TimeSlot) : Int := minutesBetween s.start s.stop

/-- `TimeWindow` of src/app/src/time_slot_finder.py. -/
structure TimeWindow where
  startHour : Int
  endHour : Int
  startMinute : Int
  endMinute : Int
deriving DecidableEq, Repr

/-- `TimeSlotFinder._parse_events_to_intervals` on already-parsed instant
pairs: keep only events overlapping the search window and clip them to it. -/
def parseEventsToIntervals (events : List (Int × Int)) (startTime endTime : Int) :
    List (Int × Int) :=
  (events.filter (fun p => decide (p.1 < endTime) && decide (p.2 > startTime))).map
    (fun p => (max p.1 startTime, min p.2 endTime))

/-- The sweep of `TimeSlotFinder.find_free_slots` (lines 81–107): emit the
gap before each busy interval when it is at least `minDur` minutes long
(`gap_duration >= min_duration_minutes` compares the exact float
`(Δseconds)/60`, which over integers is `Δ ≥ 60 * minDur`), advance the
cursor monotonically, and finally emit the tail gap up to `endTime`. -/
def tsfSweep (minDur endTime : Int) (cursor : Int) : List (Int × Int) → List TimeSlot
  | [] =>
      if cursor < endTime ∧ endTime - cursor ≥ 60 * minDur then
        [⟨cursor, endTime⟩]
      else []
  | (busyStart, busyEnd) :: rest =>
      let emitted :=
        if cursor < busyStart ∧ busyStart - cursor ≥ 60 * minDur then
          [(⟨cursor, busyStart⟩ : TimeSlot)]
        else []
      let cursor' := if busyEnd > cursor then busyEnd else cursor
      emitted ++ tsfSweep minDur endTime cursor' rest

/-- `TimeSlotFinder._slot_in_window`: does the slot overlap the preferred
window laid onto the slot's calendar date?  Midnight of the slot's (UTC)
date is `t - t % 86400`; a window whose end is not after its start wraps to
the next day. -/
def slotInWindow (slot : TimeSlot) (w : TimeWindow) : Bool :=
  let midnight := slot.start - slot.start % 86400
  let wStart := midnight + 3600 * w.startHour + 60 * w.startMinute
  let wEnd0 := midnight + 3600 * w.endHour + 60 * w.endMinute
  let wEnd := if wEnd0 ≤ wStart then wEnd0 + 86400 else wEnd0
  decide (slot.start < wEnd) && decide (slot.stop > wStart)

/-- `TimeSlotFinder._filter_by_time_windows`: keep slots overlapping at
least one preferred window. -/
def filterByTimeWindows (windows : List TimeWindow) (slots : List TimeSlot) :
    List TimeSlot :=
  slots.filter (fun s => windows.any (fun w => slotInWindow s w))

/-- `TimeSlotFinder.find_free_slots` (src/app/src/time_slot_finder.py,
lines 64–113): parse and clip events, sort by start, sweep, and filter by
preferred windows when any are given. -/
def TimeSlotFinder.findFreeSlots (events : List (Int × Int)) (startTime endTime : Int)
    (preferredWindows : List TimeWindow) (minDur : Int) : List TimeSlot :=
  let busy := sortIntervalsByStart (parseEventsToIntervals events startTime endTime)
  let slots := tsfSweep minDur endTime startTime busy
  if preferredWindows.isEmpty then slots else filterByTimeWindows preferredWindows slots

/-- `ScheduledEvent` of src/app/src/event_distributor.py (the ISO datetime
strings are modelled as the instants they denote). -/
structure ScheduledEvent where
  startTime : Int
  endTime : Int
  durationMinutes : Int
  slotIndex : Nat
  slotStart : Int
deriving DecidableEq, Repr

/-- The constructor arguments of `EventDistributor`. -/
structure DistributorConfig where
  totalMinutes : Int
  minEventDuration : Int
  maxEventDuration : Int
  minBreak : Int
deriving DecidableEq, Repr

/-- `EventDistributor._calculate_break_needed`: zero when the next slot does
not start after the last event's end, otherwise the whole minutes between
them (`int(delta.total_seconds() / 60)`). -/
def calcBreakNeeded (lastEventEnd nextSlotStart : Int) : Int :=
  if nextSlotStart ≤ lastEventEnd then 0
  else (nextSlotStart - lastEventEnd).tdiv 60

/-- The gate of lines 81–91 of `distribute_events`: when an event was
already emitted, skip slots whose computed break falls short of
`min_break`. -/
def breakOkB (mb : Int) (lastEnd : Option Int) (st : Int) : Bool :=
  match lastEnd with
  | none => true
  | some le => decide (calcBreakNeeded le st ≥ mb)

/-- Modelled from the spec: the §4.4 gap requirement
`gap(lastEventEnd, slot.start) ≥ bufferMinutes`, where the §4.1 gap is
empty unless the slot starts after the last event's end and is measured in
exact minutes. -/
def specGapOkB (mb : Int) (lastEnd : Option Int) (st : Int) : Bool :=
  match lastEnd with
  | none => true
  | some le => if le < st then decide (st - le ≥ 60 * mb) else decide ((0 : Int) ≥ mb)

/-- `EventDistributor._calculate_event_duration` (lines 117–146). -/
def calcEventDuration (cfg : DistributorConfig) (slotDuration remaining : Int) : Int :=
  if remaining ≥ cfg.maxEventDuration then
    min cfg.maxEventDuration slotDuration
  else
    let eventDuration := min remaining slotDuration
    if eventDuration < cfg.minEventDuration then 0
    else min eventDuration cfg.maxEventDuration

/-- The loop of `EventDistributor.distribute_events` (lines 76–113) over the
already-sorted slots: `i` is the `enumerate` index, `remaining` the minutes
still to place, `lastEnd` the end of the last emitted event (`None` while no
event has been emitted).  Returns the emitted events and the final remaining
minutes. -/
def distGo (cfg : DistributorConfig) :
    List TimeSlot → Nat → Int → Option Int → List ScheduledEvent × Int
  | [], _, remaining, _ => ([], remaining)
  | slot :: rest, i, remaining, lastEnd =>
      if remaining ≤ 0 then ([], remaining)
      else
        if breakOkB cfg.minBreak lastEnd slot.start then
          let d := calcEventDuration cfg slot.durationMinutes remaining
          if d ≥ cfg.minEventDuration then
            let ev : ScheduledEvent :=
              ⟨slot.start, slot.start + 60 * d, d, i, slot.start⟩
            let next := distGo cfg rest (i + 1) (remaining - d) (some ev.endTime)
            (ev :: next.1, next.2)
          else distGo cfg rest (i + 1) remaining lastEnd
        else distGo cfg rest (i + 1) remaining lastEnd

/-- `EventDistributor.distribute_events` (src/app/src/event_distributor.py,
lines 53–115): sort the slots by start (`sorted(available_slots, key=lambda
s: s.start)`) and run the greedy loop.  The early return on an empty slot
list coincides with the loop's base case. -/
def EventDistributor.distributeEvents (cfg : DistributorConfig)
    (availableSlots : List TimeSlot) : List ScheduledEvent × Int :=
  distGo cfg (List.insertionSort (fun a b => a.start ≤ b.start) availableSlots)
    0 cfg.totalMinutes none

/-- Modelled from the spec: §4.4 MinutesDistributor, which is not itself a
second code path but the spec's wording of the distributor, used as the
comparison point for the refinement claim about `distribute_events`.
Processing slots chronologically: require `gap(lastEventEnd, slot.start) ≥
bufferMinutes` (the §4.1 gap is empty when the slot does not start after the
last event, and is measured in exact minutes), compute `duration =
min(maxDurationMinutes, remaining, slot.capacity)`, skip when `duration <
minDurationMinutes`, otherwise emit the event at the slot start and decrease
`remaining`; stop when `remaining ≤ 0` or the slots are exhausted. -/
def specDistGo (cfg : DistributorConfig) :
    List TimeSlot → Nat → Int → Option Int → List ScheduledEvent × Int
  | [], _, remaining, _ => ([], remaining)
  | slot :: rest, i, remaining, lastEnd =>
      if remaining ≤ 0 then ([], remaining)
      else
        if specGapOkB cfg.minBreak lastEnd slot.start then
          let d := min cfg.maxEventDuration (min remaining slot.durationMinutes)
          if d ≥ cfg.minEventDuration then
            let ev : ScheduledEvent :=
              ⟨slot.start, slot.start + 60 * d, d, i, slot.start⟩
            let next := specDistGo cfg rest (i + 1) (remaining - d) (some ev.endTime)
            (ev :: next.1, next.2)
          else specDistGo cfg rest (i + 1) remaining lastEnd
        else specDistGo cfg rest (i + 1) remaining lastEnd

/-- Modelled from the spec (§4.4): the distributor as the spec words it,
over the slots sorted chronologically. -/
def specDistributeEvents (cfg : DistributorConfig)
    (availableSlots : List TimeSlot) : List ScheduledEvent × Int :=
  specDistGo cfg (List.insertionSort (fun a b => a.start ≤ b.start) availableSlots)
    0 cfg.totalMinutes none

/-- Python `datetime.weekday()` on an instant modelled as UTC seconds:
1970-01-01 was a Thursday, i.e. weekday 3 (Monday = 0). -/
def weekdayOf (t : Int) : Int := ((t - t % 86400) / 86400 + 3) % 7

/-- Python `datetime.hour` on an instant modelled as UTC seconds. -/
def hourOf (t : Int) : Int := (t - t % 3600) / 3600 % 24

/-- The carving loop of `filter_slots` (lines 94–133).  `fuel` bounds the
number of iterations: the Python `while` loop would not terminate when an
iteration makes no progress (event duration and buffer both zero), and in
every terminating run the iteration count is below the fuel the caller
passes.  State: `current` is `current_time`, `remaining` is
`remaining_duration` (initially the slot's `duration_minutes` dictionary
value, afterwards recomputed from the clock times). -/
def carveSlot (reqDur maxDur buffer slotEnd : Int) :
    Nat → Int → Int → List SlotD
  | 0, _, _ => []
  | fuel + 1, current, remaining =>
      if remaining ≥ reqDur then
        let avail := min maxDur remaining
        if avail < reqDur then []
        else
          let eventEnd := current + 60 * avail
          if eventEnd > slotEnd then
            let avail' := (slotEnd - current).tdiv 60
            if avail' < reqDur then []
            else
              ⟨current, slotEnd, avail'⟩ ::
                carveSlot reqDur maxDur buffer slotEnd fuel
                  (slotEnd + 60 * buffer)
                  ((slotEnd - (slotEnd + 60 * buffer)).tdiv 60)
          else
            ⟨current, eventEnd, avail⟩ ::
              carveSlot reqDur maxDur buffer slotEnd fuel
                (eventEnd + 60 * buffer)
                ((slotEnd - (eventEnd + 60 * buffer)).tdiv 60)
      else []

/-- `filter_slots` (src/app/ai_agent/nodes/filter_slots.py, lines 46–136):
drop slots shorter than the required duration, apply the day-of-week and
preferred-start-hour (±1 hour) checks, then carve each surviving slot into
back-to-back candidates separated by the buffer.  `preferredTimes` are the
parsed `HH:MM` pairs (the minute component is parsed but never used by the
code).  Each candidate dictionary also repeats the duration under
`habit_duration_minutes`, which carries no extra information. -/
def filterSlots (freeSlots : List SlotD) (reqDur maxDur buffer : Int)
    (preferredTimes : List (Int × Int)) (daysOfWeek : List Int) : List SlotD :=
  freeSlots.flatMap fun slot =>
    if slot.durationMinutes < reqDur then []
    else if !daysOfWeek.isEmpty && !(daysOfWeek.contains (weekdayOf slot.start)) then []
    else if !preferredTimes.isEmpty
        && !(preferredTimes.any fun p => decide ((hourOf slot.start - p.1).natAbs ≤ 1)) then []
    else
      carveSlot reqDur maxDur buffer slot.stop
        (slot.durationMinutes.toNat + 1) slot.start slot.durationMinutes

/-- `filter_task_slots` (src/app/ai_agent/nodes/filter_task_slots.py, lines
51–99): drop slots whose `duration_minutes` value is below the required
duration, drop slots starting strictly after the due instant when one is
set, then emit one candidate per surviving slot at the slot start with the
required duration, clamped to the slot end and re-checked. -/
def filterTaskSlots (freeSlots : List SlotD) (reqDur : Int) (due : Option Int) :
    List SlotD :=
  freeSlots.flatMap fun slot =>
    if slot.durationMinutes < reqDur then []
    else if (match due with | some d => decide (slot.start > d) | none => false) then []
    else
      let d0 := min reqDur slot.durationMinutes
      let e0 := slot.start + 60 * d0
      let clamped : Int × Int :=
        if e0 > slot.stop then (slot.stop, (slot.stop - slot.start).tdiv 60)
        else (e0, d0)
      if clamped.2 ≥ reqDur then [⟨slot.start, clamped.1, clamped.2⟩] else []

/-- Python `sorted(candidate_slots, key=lambda s: datetime.fromisoformat(s["start"]))`. -/
def sortSlotsByStart (l : List SlotD) : List SlotD :=
  List.insertionSort (fun a b => a.start ≤ b.start) l

/-- `select_slots` lines 122–125: `sorted(candidate_slots[:50], key=...)` —
the first fifty candidates, sorted by start. -/
def prepCandidates (l : List SlotD) : List SlotD := sortSlotsByStart (l.take 50)

/-- The validation of a single-item ranking proposal in `select_slots`
(lines 398–434).  `selIdx` is the 1-based `selected_slot_index` and
`startT` the proposed `task_start_time`.  `none` models the `ValueError`
paths (index out of range, or the required duration not fitting even after
clamping), which the caller catches by falling through to the fallback.  A
start before the chosen free slot is clamped forward to the slot start; an
end past the slot end is clamped backward so the event ends at the slot
end. -/
def validateTaskProposal (cands : List SlotD) (selIdx startT estMin : Int) :
    Option SlotD :=
  let i := selIdx - 1
  if h : 0 ≤ i ∧ i < (cands.length : Int) then
    let fs := cands.get ⟨i.toNat, by omega⟩
    let st0 := if startT < fs.start then fs.start else startT
    let en0 := st0 + 60 * estMin
    if en0 > fs.stop then
      let st1 := fs.stop - 60 * estMin
      if st1 < fs.start then none
      else some ⟨st1, fs.stop, estMin⟩
    else some ⟨st0, en0, estMin⟩
  else none

/-- The task branch of the fallback selection loop of `select_slots` (lines
506–543): walk the candidates sorted by start, take the first whose
`duration_minutes` value meets the requirement and in which the estimated
duration fits after clamping to the slot end, and emit exactly one event
(`break`). -/
def taskFallbackGo (reqDur estMin : Int) : List SlotD → List SlotD
  | [] => []
  | slot :: rest =>
      if slot.durationMinutes ≥ reqDur then
        let en := slot.start + 60 * estMin
        if en > slot.stop then
          let st1 := slot.stop - 60 * estMin
          if st1 < slot.start then taskFallbackGo reqDur estMin rest
          else [⟨st1, slot.stop, estMin⟩]
        else [⟨slot.start, en, estMin⟩]
      else taskFallbackGo reqDur estMin rest

/-- `select_slots` in task mode, as a function of the candidate slots, the
ranking proposal (the parsed `selected_slot_index` / `task_start_time` pair
of the external ranking response, `none` when the response is absent or
malformed) and the estimated task duration.  In task mode
`required_duration_minutes` is set to `estimated_time_minutes` (line 82).
An accepted proposal yields that single event; every failure path runs the
fallback over all candidates sorted by start (the fallback sorts the full
candidate list, not the 50-candidate prefix the proposal indexes into). -/
def selectTaskSlot (cands : List SlotD) (proposal : Option (Int × Int))
    (estMin : Int) : List SlotD :=
  if cands.isEmpty then []
  else
    match proposal with
    | some p =>
        match validateTaskProposal (prepCandidates cands) p.1 p.2 estMin with
        | some s => [s]
        | none => taskFallbackGo estMin estMin (sortSlotsByStart cands)
    | none => taskFallbackGo estMin estMin (sortSlotsByStart cands)

/-- `select_slots` lines 445–452 (habit mode): map the 1-based indices of
the ranking response back to candidate slots, silently dropping indices out
of range. -/
def llmMapIndices (cands : List SlotD) (indices : List Int) : List SlotD :=
  indices.flatMap fun idx =>
    let i := idx - 1
    if h : 0 ≤ i ∧ i < (cands.length : Int) then [cands.get ⟨i.toNat, by omega⟩]
    else []

/-- `select_slots` lines 463–482 (habit mode): top up an under-sized
selection with further candidates in start order, skipping candidates
already selected, enforcing the buffer against the end of the last selected
slot (`gap_minutes < buffer_minutes` over exact minutes) and the duration
requirement. -/
def addMoreGo (target : Nat) (buffer reqDur : Int) (selected : List SlotD)
    (lastEnd : Option Int) : List SlotD → List SlotD
  | [] => selected
  | slot :: rest =>
      if selected.length ≥ target then selected
      else if selected.contains slot then
        addMoreGo target buffer reqDur selected lastEnd rest
      else
        let bufferOk : Bool :=
          match lastEnd with
          | some le => decide (slot.start - le ≥ 60 * buffer)
          | none => true
        if bufferOk then
          if slot.durationMinutes ≥ reqDur then
            addMoreGo target buffer reqDur (selected ++ [slot]) (some slot.stop) rest
          else addMoreGo target buffer reqDur selected lastEnd rest
        else addMoreGo target buffer reqDur selected lastEnd rest

/-- `select_slots` in habit mode on the successful-response path (lines
439–487): map the response indices to slots and, when fewer than the target
were selected (and fewer than there are candidates), add more slots with
the buffer/duration checks.  Slots selected by index are never
buffer-checked. -/
def selectHabitSlots (cands : List SlotD) (llmIndices : List Int)
    (target : Nat) (buffer reqDur : Int) : List SlotD :=
  if cands.isEmpty then []
  else
    let cands50 := prepCandidates cands
    let selected := llmMapIndices cands50 llmIndices
    if selected.length < target ∧ selected.length < cands50.length then
      addMoreGo target buffer reqDur selected (selected.getLast?.map (·.stop)) cands50
    else selected

/-- The habit branch of the fallback selection loop of `select_slots`
(lines 506–547): walk the candidates in start order, keeping a slot when
the gap from the last kept slot's end is at least the buffer and its
`duration_minutes` value meets the requirement, until `target` slots are
kept.  The first argument counts the slots still wanted. -/
def habitFallbackGo (buffer reqDur : Int) : Nat → Option Int → List SlotD → List SlotD
  | 0, _, _ => []
  | _ + 1, _, [] => []
  | n + 1, lastEnd, slot :: rest =>
      let bufferOk : Bool :=
        match lastEnd with
        | some le => decide (slot.start - le ≥ 60 * buffer)
        | none => true
      if bufferOk then
        if slot.durationMinutes ≥ reqDur then
          slot :: habitFallbackGo buffer reqDur n (some slot.stop) rest
        else habitFallbackGo buffer reqDur (n + 1) lastEnd rest
      else habitFallbackGo buffer reqDur (n + 1) lastEnd rest

/-- `select_slots` in habit mode on the exception path (lines 489–552):
the deterministic fallback over all candidates sorted by start. -/
def selectHabitFallback (cands : List SlotD) (target : Nat)
    (buffer reqDur : Int) : List SlotD :=
  habitFallbackGo buffer reqDur target none (sortSlotsByStart cands)

/-- The habit scheduling pipeline as wired by the agent graph:
`compute_free_slots` → `filter_slots` → `select_slots` (habit mode), as a
function of the busy periods, the planning window, the habit constraints
and the parsed index list of the external ranking response.  The response
(and, in the source, the wall clock backing defaulted planning horizons) is
an input of the computation. -/
def schedulePipeline (busyPeriods : List (Int × Int)) (startDate endDate : Int)
    (reqDur maxDur buffer : Int) (preferredTimes : List (Int × Int))
    (daysOfWeek : List Int) (target : Nat) (llmIndices : List Int) : List SlotD :=
  selectHabitSlots
    (filterSlots (computeFreeSlots busyPeriods startDate endDate)
      reqDur maxDur buffer preferredTimes daysOfWeek)
    llmIndices target buffer reqDur

/-! ## Arithmetic helpers for Python's truncating minute division -/

lemma tdiv_sixty_eq (d : Int) (h : 0 ≤ d) : d.tdiv 60 = d / 60 :=
  Int.tdiv_eq_ediv h (by norm_num)

lemma tdiv_sixty_ge_iff (d m : Int) (hd : 0 ≤ d) : d.tdiv 60 ≥ m ↔ d ≥ 60 * m := by
  rw [tdiv_sixty_eq d hd]; omega

lemma mul_tdiv_sixty_le (d : Int) (hd : 0 ≤ d) : 60 * (d.tdiv 60) ≤ d := by
  rw [tdiv_sixty_eq d hd]; omega

lemma tdiv_sixty_nonneg (d : Int) (hd : 0 ≤ d) : 0 ≤ d.tdiv 60 := by
  rw [tdiv_sixty_eq d hd]; omega

lemma tdiv_sixty_le_of_lt_mul (d a : Int) (h : d < 60 * a) : d.tdiv 60 ≤ a := by
  rcases le_or_lt 0 d with hd | hd
  · rw [tdiv_sixty_eq d hd]; omega
  · have h2 : d.tdiv 60 = -((-d).tdiv 60) := by rw [← Int.neg_tdiv, neg_neg]
    rw [h2, tdiv_sixty_eq _ (by omega)]; omega

lemma tdiv_sixty_lt_of_lt_mul (d a : Int) (hd : 0 ≤ d) (h : d < 60 * a) :
    d.tdiv 60 < a := by
  rw [tdiv_sixty_eq d hd]; omega

lemma roundDownToHour_le (t : Int) : roundDownToHour t ≤ t := by
  unfold roundDownToHour; omega

/-! ## C2: the empty-busy-list case of the free-time computation -/

/-- C2 (amended): with an empty busy list, `TimeSlotFinder.find_free_slots`
(no minimum duration, no preferred windows) returns exactly one slot
spanning the whole nonempty window, while `compute_free_slots` returns
*two* slots: one from the hour-rounded-down start and one spanning the
requested range. -/
theorem C2_empty_busy (ws we : Int) (h : ws < we) :
    TimeSlotFinder.findFreeSlots [] ws we [] 0 = [⟨ws, we⟩] ∧
    computeFreeSlots [] ws we = [mkSlotD (roundDownToHour ws) we, mkSlotD ws we] := by
  constructor
  · simp only [TimeSlotFinder.findFreeSlots, parseEventsToIntervals, sortIntervalsByStart,
      List.filter_nil, List.map_nil, List.insertionSort, tsfSweep, List.isEmpty_nil,
      if_true]
    rw [if_pos ⟨h, by omega⟩]
  · have hround : roundDownToHour ws < we := lt_of_le_of_lt (roundDownToHour_le ws) h
    simp only [computeFreeSlots, sortIntervalsByStart, List.insertionSort, cfsSweep,
      List.isEmpty_nil, if_true, List.nil_append]
    rw [if_pos hround]
    rfl

/-- C2 counterexample: with an empty busy list and window
`[09:30, 12:00)` (seconds 34200–43200), `compute_free_slots` returns two
slots — `[09:00, 12:00)` from the hour-rounded cursor plus `[09:30, 12:00)`
from the dedicated empty-busy branch — not one slot spanning the window as
claimed. -/
theorem C2_empty_busy_cex :
    computeFreeSlots [] 34200 43200 =
      [⟨32400, 43200, 180⟩, ⟨34200, 43200, 150⟩] ∧
    (computeFreeSlots [] 34200 43200).length ≠ 1 := ⟨by decide, by decide⟩

/-- Witness for `C2_empty_busy` at the concrete window `[100, 7300)`. -/
theorem C2_empty_busy_witness :
    TimeSlotFinder.findFreeSlots [] 100 7300 [] 0 = [⟨100, 7300⟩] ∧
    computeFreeSlots [] 100 7300 =
      [mkSlotD (roundDownToHour 100) 7300, mkSlotD 100 7300] :=
  C2_empty_busy 100 7300 (by decide)

/-! ## C9: the hour rounding of the sweep cursor -/

/-- C9 (amended): `compute_free_slots` floors its sweep cursor to the whole
hour, so whenever the window start is not on an exact hour, the window is
nonempty and every busy period starts strictly after the rounded-down
cursor (in particular whenever the busy list is empty), the *first* emitted
free slot starts at the rounded-down hour, strictly before the requested
window start.  With a busy period at or before the rounded cursor this can
fail (see the counterexample). -/
theorem C9_hour_rounding (busy : List (Int × Int)) (ws we : Int)
    (hmin : roundDownToHour ws ≠ ws) (hwin : ws < we)
    (hbusy : ∀ p ∈ busy, roundDownToHour ws < p.1) :
    (computeFreeSlots busy ws we).head?.map SlotD.start =
      some (roundDownToHour ws) ∧
    roundDownToHour ws < ws := by
  have hlt : roundDownToHour ws < ws := lt_of_le_of_ne (roundDownToHour_le ws) hmin
  refine ⟨?_, hlt⟩
  rcases hsort : sortIntervalsByStart busy with _ | ⟨⟨bs, be⟩, rest⟩
  · have hperm := List.perm_insertionSort (fun a b : Int × Int => a.1 ≤ b.1) busy
    have hbe : busy = [] := by
      have h0 : sortIntervalsByStart busy = List.insertionSort
          (fun a b : Int × Int => a.1 ≤ b.1) busy := rfl
      rw [h0] at hsort
      exact (hsort ▸ hperm).symm.eq_nil
    subst hbe
    have hround : roundDownToHour ws < we := lt_trans hlt hwin
    simp only [computeFreeSlots, sortIntervalsByStart, List.insertionSort, cfsSweep,
      List.isEmpty_nil, if_true, List.nil_append]
    rw [if_pos hround]
    rfl
  · have hmem : (bs, be) ∈ busy := by
      have hperm := List.perm_insertionSort (fun a b : Int × Int => a.1 ≤ b.1) busy
      have h1 : (bs, be) ∈ sortIntervalsByStart busy := by
        rw [hsort]; exact List.mem_cons_self _ _
      have h0 : sortIntervalsByStart busy = List.insertionSort
          (fun a b : Int × Int => a.1 ≤ b.1) busy := rfl
      rw [h0] at h1
      exact hperm.mem_iff.mp h1
    have hcb : roundDownToHour ws < bs := hbusy _ hmem
    simp only [computeFreeSlots, hsort, cfsSweep]
    rw [if_pos hcb]
    simp [mkSlotD]

/-- C9 counterexample: window start 10:30 (37800 s, minute non-zero) with a
busy period `[09:00, 11:00)` covering it.  The busy period starts before
the rounded cursor, so the single emitted free slot starts at 11:00
(39600 s) — *after* the requested window start, contradicting the claim as
stated for every busy-period list. -/
theorem C9_hour_rounding_cex :
    computeFreeSlots [(32400, 39600)] 37800 43200 = [⟨39600, 43200, 60⟩] ∧
    ¬ ((39600 : Int) < 37800) := ⟨by decide, by decide⟩

/-- Witness for `C9_hour_rounding`: busy `[10:00, 10:30)`, window start
09:30 (34200 s). -/
theorem C9_hour_rounding_witness :
    (computeFreeSlots [(36000, 37800)] 34200 43200).head?.map SlotD.start =
      some (roundDownToHour 34200) ∧
    roundDownToHour 34200 < 34200 :=
  C9_hour_rounding [(36000, 37800)] 34200 43200 (by decide) (by decide)
    (by intro p hp; fin_cases hp; decide)

/-! ## C7: the due-date cutoff of the task filter -/

/-- C7 (amended): when a due cutoff is set, `filter_task_slots` rejects
every free slot whose start is *strictly after* the cutoff — equivalently,
every emitted candidate starts at or before it.  A slot starting exactly at
the cutoff is accepted, not rejected (see the counterexample). -/
theorem C7_cutoff_filter (slots : List SlotD) (req d : Int) :
    ∀ c ∈ filterTaskSlots slots req (some d), c.start ≤ d := by
  induction slots with
  | nil => intro c hc; simp [filterTaskSlots] at hc
  | cons s rest ih =>
      intro c hc
      simp only [filterTaskSlots, List.flatMap_cons, List.mem_append] at hc
      rcases hc with hc | hc
      · split_ifs at hc with h1 h2 h3 h4 h5
        · simp at hc
        · simp at hc
        · rcases List.mem_singleton.mp hc with rfl
          simp only [gt_iff_lt, decide_eq_true_eq, not_lt] at h2
          exact h2
        · simp at hc
        · rcases List.mem_singleton.mp hc with rfl
          simp only [gt_iff_lt, decide_eq_true_eq, not_lt] at h2
          exact h2
        · simp at hc
      · exact ih c hc

/-- C7 counterexample: cutoff `7200` and a free slot starting exactly at
`7200`: the code's strict comparison `slot_start > due_datetime` keeps the
slot, and a candidate starting exactly at the cutoff is emitted — the
claimed rejection of slots starting *at* the cutoff does not happen. -/
theorem C7_cutoff_filter_cex :
    filterTaskSlots [⟨7200, 10800, 60⟩] 30 (some 7200) = [⟨7200, 9000, 30⟩] ∧
    filterTaskSlots [⟨7200, 10800, 60⟩] 30 (some 7200) ≠ [] :=
  ⟨by decide, by decide⟩

/-- Witness for `C7_cutoff_filter` at a concrete slot list and cutoff. -/
theorem C7_cutoff_filter_witness : (⟨0, 1800, 30⟩ : SlotD).start ≤ 100000 :=
  C7_cutoff_filter [⟨0, 3600, 60⟩] 30 100000 ⟨0, 1800, 30⟩ (by decide)

/-! ## C10: shape of the candidates emitted by the task filter -/

/-- C10 (confirmed, for well-formed slots): every candidate emitted by
`filter_task_slots` has `duration_minutes` exactly the task's required
duration, starts exactly at its source free slot's start and ends exactly
the required duration later, within the source slot; slots that cannot host
the exact duration produce no candidate. -/
theorem C10_task_candidates (slots : List SlotD) (req : Int) (due : Option Int)
    (hwf : ∀ s ∈ slots, s.start ≤ s.stop) :
    ∀ c ∈ filterTaskSlots slots req due,
      c.durationMinutes = req ∧
      ∃ s ∈ slots, c.start = s.start ∧ c.stop = s.start + 60 * req ∧
        c.stop ≤ s.stop ∧ req ≤ s.durationMinutes := by
  induction slots with
  | nil => intro c hc; simp [filterTaskSlots] at hc
  | cons s rest ih =>
      intro c hc
      simp only [filterTaskSlots, List.flatMap_cons, List.mem_append] at hc
      rcases hc with hc | hc
      · have hwfs : s.start ≤ s.stop := hwf s (List.mem_cons_self _ _)
        split_ifs at hc with h1 h2 h3 h4
        · simp at hc
        · simp at hc
        · -- clamped branch with the duration gate passing: impossible
          exfalso
          simp only [not_lt] at h1
          have h3' : s.start + 60 * req > s.stop := by
            have h0 := h3; rw [min_eq_left h1] at h0; exact h0
          have h4' : (s.stop - s.start).tdiv 60 ≥ req := h4
          have hlt : s.stop - s.start < 60 * req := by omega
          have := tdiv_sixty_lt_of_lt_mul (s.stop - s.start) req (by omega) hlt
          omega
        · simp at hc
        · -- unclamped emission
          simp only [not_lt] at h1
          have hmin : req ⊓ s.durationMinutes = req := min_eq_left h1
          rcases List.mem_singleton.mp hc with rfl
          refine ⟨?_, s, List.mem_cons_self _ _, rfl, ?_, ?_, h1⟩
          · show req ⊓ s.durationMinutes = req
            exact hmin
          · show s.start + 60 * (req ⊓ s.durationMinutes) = s.start + 60 * req
            rw [hmin]
          · show s.start + 60 * (req ⊓ s.durationMinutes) ≤ s.stop
            rw [hmin]
            rw [min_eq_left h1] at h3
            omega
        · simp at hc
      · rcases ih (fun t ht => hwf t (List.mem_cons_of_mem _ ht)) c hc with
          ⟨hdur, t, htmem, hrest⟩
        exact ⟨hdur, t, List.mem_cons_of_mem _ htmem, hrest⟩

/-- Witness for `C10_task_candidates` at a concrete slot list. -/
theorem C10_task_candidates_witness :
    (⟨0, 1800, 30⟩ : SlotD).durationMinutes = 30 ∧
    ∃ s ∈ [(⟨0, 7200, 120⟩ : SlotD)], (⟨0, 1800, 30⟩ : SlotD).start = s.start ∧
      (⟨0, 1800, 30⟩ : SlotD).stop = s.start + 60 * 30 ∧
      (⟨0, 1800, 30⟩ : SlotD).stop ≤ s.stop ∧ 30 ≤ s.durationMinutes :=
  C10_task_candidates [⟨0, 7200, 120⟩] 30 none
    (by intro s hs; fin_cases hs; decide) ⟨0, 1800, 30⟩ (by decide)

/-! ## C4: duration bounds of carved candidates and distributed events -/

lemma carveSlot_duration (req maxD buf se : Int) :
    ∀ (fuel : Nat) (current remaining : Int),
      ∀ c ∈ carveSlot req maxD buf se fuel current remaining,
        req ≤ c.durationMinutes ∧ c.durationMinutes ≤ maxD := by
  intro fuel
  induction fuel with
  | zero => intro current remaining c hc; simp [carveSlot] at hc
  | succ n ih =>
      intro current remaining c hc
      simp only [carveSlot] at hc
      split_ifs at hc with h1 h2 h3 h4
      · simp at hc
      · simp at hc
      · -- clamped emission
        rcases List.mem_cons.mp hc with rfl | hc
        · constructor
          · show req ≤ (se - current).tdiv 60
            exact le_of_not_lt h4
          · show (se - current).tdiv 60 ≤ maxD
            have hlt : se - current < 60 * (min maxD remaining) := by omega
            have h5 := tdiv_sixty_le_of_lt_mul (se - current) (min maxD remaining) hlt
            exact le_trans h5 (min_le_left _ _)
        · exact ih _ _ c hc
      · -- unclamped emission
        rcases List.mem_cons.mp hc with rfl | hc
        · constructor
          · show req ≤ min maxD remaining
            exact le_of_not_lt h2
          · show min maxD remaining ≤ maxD
            exact min_le_left _ _
        · exact ih _ _ c hc
      · simp at hc

lemma calcEventDuration_le_max (cfg : DistributorConfig) (dm rem : Int)
    (hrem : 0 < rem) : calcEventDuration cfg dm rem ≤ cfg.maxEventDuration := by
  simp only [calcEventDuration]
  split_ifs with h1 h2
  · exact min_le_left _ _
  · omega
  · exact min_le_right _ _

lemma distGo_duration (cfg : DistributorConfig) :
    ∀ (l : List TimeSlot) (i : Nat) (rem : Int) (le : Option Int),
      ∀ e ∈ (distGo cfg l i rem le).1,
        cfg.minEventDuration ≤ e.durationMinutes ∧
        e.durationMinutes ≤ cfg.maxEventDuration := by
  intro l
  induction l with
  | nil => intro i rem le e he; simp [distGo] at he
  | cons slot rest ih =>
      intro i rem le e he
      simp only [distGo] at he
      split_ifs at he with h1 h2 h3
      · simp at he
      · rcases List.mem_cons.mp he with rfl | he
        · exact ⟨h3, calcEventDuration_le_max cfg slot.durationMinutes rem (by omega)⟩
        · exact ih _ _ _ e he
      · exact ih _ _ _ e he
      · exact ih _ _ _ e he

/-- C4 (confirmed): every candidate emitted by `filter_slots` has duration
at least the required duration and at most the configured maximum, and
every event emitted by `EventDistributor.distribute_events` has duration at
least `min_event_duration` and at most `max_event_duration`. -/
theorem C4_duration_bounds (freeSlots : List SlotD) (req maxD buf : Int)
    (pts : List (Int × Int)) (dows : List Int)
    (cfg : DistributorConfig) (slots : List TimeSlot) :
    (∀ c ∈ filterSlots freeSlots req maxD buf pts dows,
        req ≤ c.durationMinutes ∧ c.durationMinutes ≤ maxD) ∧
    (∀ e ∈ (EventDistributor.distributeEvents cfg slots).1,
        cfg.minEventDuration ≤ e.durationMinutes ∧
        e.durationMinutes ≤ cfg.maxEventDuration) := by
  constructor
  · intro c hc
    simp only [filterSlots] at hc
    rcases List.mem_flatMap.mp hc with ⟨slot, _, hmem⟩
    split_ifs at hmem with h1 h2 h3
    · simp at hmem
    · simp at hmem
    · simp at hmem
    · exact carveSlot_duration req maxD buf slot.stop _ _ _ c hmem
  · intro e he
    exact distGo_duration cfg
      (List.insertionSort (fun a b : TimeSlot => a.start ≤ b.start) slots)
      0 cfg.totalMinutes none e he

/-- Witness for `C4_duration_bounds` on the spec's Example 2 slot. -/
theorem C4_duration_bounds_witness :
    30 ≤ (⟨0, 1800, 30⟩ : SlotD).durationMinutes ∧
    (⟨0, 1800, 30⟩ : SlotD).durationMinutes ≤ 30 :=
  (C4_duration_bounds [⟨0, 5400, 90⟩] 30 30 15 [] [] ⟨100, 30, 45, 10⟩ []).1
    ⟨0, 1800, 30⟩ (by decide)

/-! ## C5: the distributor's per-slot behaviour refines the spec's wording -/

lemma calcBreakNeeded_ge_iff (mb le st : Int) :
    calcBreakNeeded le st ≥ mb ↔ (if le < st then st - le ≥ 60 * mb else 0 ≥ mb) := by
  unfold calcBreakNeeded
  by_cases h : le < st
  · rw [if_neg (by omega), if_pos h]
    exact tdiv_sixty_ge_iff (st - le) mb (by omega)
  · rw [if_pos (by omega), if_neg h]

lemma breakOkB_eq_specGapOkB (mb : Int) (le : Option Int) (st : Int) :
    breakOkB mb le st = specGapOkB mb le st := by
  cases le with
  | none => rfl
  | some x =>
      simp only [breakOkB, specGapOkB]
      by_cases h : x < st
      · rw [if_pos h, decide_eq_decide]
        rw [calcBreakNeeded_ge_iff, if_pos h]
      · rw [if_neg h, decide_eq_decide]
        rw [calcBreakNeeded_ge_iff, if_neg h]

lemma calcEventDuration_spec (cfg : DistributorConfig) (dm rem : Int)
    (hdm : 0 ≤ dm) (hrem : 0 < rem) :
    (calcEventDuration cfg dm rem ≥ cfg.minEventDuration ↔
      min cfg.maxEventDuration (min rem dm) ≥ cfg.minEventDuration) ∧
    (calcEventDuration cfg dm rem ≥ cfg.minEventDuration →
      calcEventDuration cfg dm rem = min cfg.maxEventDuration (min rem dm)) := by
  simp only [calcEventDuration]
  split_ifs with h1 h2
  · have h0 : min cfg.maxEventDuration dm = min cfg.maxEventDuration (min rem dm) := by
      omega
    rw [h0]
    exact ⟨Iff.rfl, fun _ => rfl⟩
  · constructor
    · constructor
      · intro h0; exfalso; omega
      · intro h0; exfalso; omega
    · intro h0; exfalso; omega
  · have h0 : min (min rem dm) cfg.maxEventDuration =
        min cfg.maxEventDuration (min rem dm) := min_comm _ _
    rw [h0]
    exact ⟨Iff.rfl, fun _ => rfl⟩

lemma TimeSlot.durationMinutes_nonneg (s : TimeSlot) (h : s.start ≤ s.stop) :
    0 ≤ s.durationMinutes :=
  tdiv_sixty_nonneg _ (by omega)

lemma distGo_eq_spec (cfg : DistributorConfig) :
    ∀ l : List TimeSlot, (∀ s ∈ l, s.start ≤ s.stop) →
      ∀ (i : Nat) (rem : Int) (le : Option Int),
        distGo cfg l i rem le = specDistGo cfg l i rem le := by
  intro l
  induction l with
  | nil => intro _ i rem le; rfl
  | cons slot rest ih =>
      intro hwf i rem le
      have hwfs : slot.start ≤ slot.stop := hwf slot (List.mem_cons_self _ _)
      have hdm : 0 ≤ slot.durationMinutes := TimeSlot.durationMinutes_nonneg slot hwfs
      have ihrest := ih (fun s hs => hwf s (List.mem_cons_of_mem _ hs))
      simp only [distGo, specDistGo, breakOkB_eq_specGapOkB]
      by_cases h1 : rem ≤ 0
      · rw [if_pos h1, if_pos h1]
      · rw [if_neg h1, if_neg h1]
        by_cases hg : specGapOkB cfg.minBreak le slot.start = true
        · rw [if_pos hg, if_pos hg]
          have hspec := calcEventDuration_spec cfg slot.durationMinutes rem hdm (by omega)
          by_cases hgate : calcEventDuration cfg slot.durationMinutes rem ≥
              cfg.minEventDuration
          · rw [if_pos hgate, if_pos (hspec.1.mp hgate), hspec.2 hgate, ihrest]
          · rw [if_neg hgate, if_neg (fun hc => hgate (hspec.1.mpr hc)), ihrest]
        · rw [if_neg hg, if_neg hg, ihrest]

lemma distGo_slotIndex_lb (cfg : DistributorConfig) :
    ∀ (l : List TimeSlot) (i : Nat) (rem : Int) (le : Option Int),
      ∀ e ∈ (distGo cfg l i rem le).1, i ≤ e.slotIndex := by
  intro l
  induction l with
  | nil => intro i rem le e he; simp [distGo] at he
  | cons slot rest ih =>
      intro i rem le e he
      simp only [distGo] at he
      split_ifs at he with h1 h2 h3
      · simp at he
      · rcases List.mem_cons.mp he with rfl | he
        · exact le_refl _
        · exact le_trans (Nat.le_succ i) (ih (i + 1) _ _ e he)
      · exact le_trans (Nat.le_succ i) (ih (i + 1) _ _ e he)
      · exact le_trans (Nat.le_succ i) (ih (i + 1) _ _ e he)

lemma distGo_slotIndex_pairwise (cfg : DistributorConfig) :
    ∀ (l : List TimeSlot) (i : Nat) (rem : Int) (le : Option Int),
      List.Pairwise (fun a b : ScheduledEvent => a.slotIndex < b.slotIndex)
        (distGo cfg l i rem le).1 := by
  intro l
  induction l with
  | nil => intro i rem le; simp [distGo]
  | cons slot rest ih =>
      intro i rem le
      simp only [distGo]
      split_ifs with h1 h2 h3
      · exact List.Pairwise.nil
      · refine List.Pairwise.cons ?_ (ih (i + 1) _ _)
        intro e he
        have := distGo_slotIndex_lb cfg rest (i + 1) _ _ e he
        show i < e.slotIndex
        omega
      · exact ih (i + 1) _ _
      · exact ih (i + 1) _ _

lemma distGo_conservation (cfg : DistributorConfig) :
    ∀ (l : List TimeSlot) (i : Nat) (rem : Int) (le : Option Int),
      rem = ((distGo cfg l i rem le).1.map ScheduledEvent.durationMinutes).sum +
        (distGo cfg l i rem le).2 := by
  intro l
  induction l with
  | nil => intro i rem le; simp [distGo]
  | cons slot rest ih =>
      intro i rem le
      simp only [distGo]
      split_ifs with h1 h2 h3
      · simp
      · simp only [List.map_cons, List.sum_cons]
        have h0 := ih (i + 1) (rem - calcEventDuration cfg slot.durationMinutes rem)
          (some (slot.start + 60 * calcEventDuration cfg slot.durationMinutes rem))
        omega
      · exact ih (i + 1) rem le
      · exact ih (i + 1) rem le

/-- C5 (confirmed): for well-formed slots, `distribute_events` behaves
exactly as the spec words it — per slot the duration is
`min(maxDurationMinutes, remaining, slot capacity)`, the slot is skipped
below `minDurationMinutes`, otherwise exactly one event of that duration is
emitted at the slot start and `remaining` decreases by it, stopping when
`remaining ≤ 0` or the slots run out (the refinement equation); moreover
the emitted events use strictly increasing slot indices, so no slot ever
yields two distributor-level events, and the requested minutes are
conserved between scheduled durations and the returned remainder. -/
theorem C5_distributor_step (cfg : DistributorConfig) (slots : List TimeSlot) :
    ((∀ s ∈ slots, s.start ≤ s.stop) →
      EventDistributor.distributeEvents cfg slots = specDistributeEvents cfg slots) ∧
    List.Pairwise (fun a b : ScheduledEvent => a.slotIndex < b.slotIndex)
      (EventDistributor.distributeEvents cfg slots).1 ∧
    cfg.totalMinutes =
      ((EventDistributor.distributeEvents cfg slots).1.map
        ScheduledEvent.durationMinutes).sum +
      (EventDistributor.distributeEvents cfg slots).2 := by
  refine ⟨?_, ?_, ?_⟩
  · intro hwf
    have hwfs : ∀ s ∈ List.insertionSort
        (fun a b : TimeSlot => a.start ≤ b.start) slots, s.start ≤ s.stop := by
      intro s hs
      exact hwf s ((List.perm_insertionSort _ slots).mem_iff.mp hs)
    exact distGo_eq_spec cfg _ hwfs 0 cfg.totalMinutes none
  · exact distGo_slotIndex_pairwise cfg _ 0 cfg.totalMinutes none
  · exact distGo_conservation cfg _ 0 cfg.totalMinutes none

/-- Witness for `C5_distributor_step` on the spec's Example 3
configuration (`totalMinutes = 100`, `min = 30`, `max = 45`,
`buffer = 10`) over 50- and 60-minute slots. -/
theorem C5_distributor_step_witness :
    EventDistributor.distributeEvents ⟨100, 30, 45, 10⟩ [⟨0, 3000⟩, ⟨4000, 7600⟩] =
      specDistributeEvents ⟨100, 30, 45, 10⟩ [⟨0, 3000⟩, ⟨4000, 7600⟩] :=
  (C5_distributor_step ⟨100, 30, 45, 10⟩ [⟨0, 3000⟩, ⟨4000, 7600⟩]).1
    (by intro s hs; fin_cases hs <;> decide)

/-! ## C3: the inter-event buffer invariant -/

lemma calcEventDuration_le_slot (cfg : DistributorConfig) (dm rem : Int)
    (hdm : 0 ≤ dm) : calcEventDuration cfg dm rem ≤ dm := by
  simp only [calcEventDuration]
  split_ifs with h1 h2
  · exact min_le_right _ _
  · exact hdm
  · exact le_trans (min_le_left _ _) (min_le_right _ _)

lemma distGo_chain (cfg : DistributorConfig) :
    ∀ (l : List TimeSlot) (i : Nat) (rem : Int) (le : Option Int),
      (∀ s ∈ l, s.start ≤ s.stop) →
      List.Pairwise (fun a b : TimeSlot => a.stop ≤ b.start) l →
      (∀ x, le = some x → ∀ s ∈ l, x ≤ s.start) →
      List.Chain' (fun a b : ScheduledEvent =>
        a.endTime + 60 * cfg.minBreak ≤ b.startTime) (distGo cfg l i rem le).1 ∧
      (∀ e, (distGo cfg l i rem le).1.head? = some e →
        ∀ x, le = some x → x + 60 * cfg.minBreak ≤ e.startTime) := by
  intro l
  induction l with
  | nil => intro i rem le _ _ _; simp [distGo]
  | cons slot rest ih =>
      intro i rem le hwf hpw hle
      have hwfs : slot.start ≤ slot.stop := hwf slot (List.mem_cons_self _ _)
      have hwfrest : ∀ s ∈ rest, s.start ≤ s.stop :=
        fun s hs => hwf s (List.mem_cons_of_mem _ hs)
      obtain ⟨hpwhead, hpwrest⟩ := List.pairwise_cons.mp hpw
      simp only [distGo]
      split_ifs with h1 h2 h3
      · simp
      · -- emit an event in this slot
        have hgap : ∀ x, le = some x → x + 60 * cfg.minBreak ≤ slot.start := by
          intro x hx
          rw [hx] at h2
          simp only [breakOkB, decide_eq_true_eq] at h2
          rw [calcBreakNeeded_ge_iff] at h2
          by_cases hlt : x < slot.start
          · rw [if_pos hlt] at h2; omega
          · rw [if_neg hlt] at h2
            have hxle : x ≤ slot.start := hle x hx slot (List.mem_cons_self _ _)
            omega
        have hdle : calcEventDuration cfg slot.durationMinutes rem ≤
            slot.durationMinutes :=
          calcEventDuration_le_slot cfg _ rem
            (TimeSlot.durationMinutes_nonneg slot hwfs)
        have hspan : 60 * slot.durationMinutes ≤ slot.stop - slot.start :=
          mul_tdiv_sixty_le _ (by omega)
        have hnew : ∀ s ∈ rest,
            slot.start + 60 * calcEventDuration cfg slot.durationMinutes rem ≤
              s.start := by
          intro s hs
          have := hpwhead s hs
          omega
        obtain ⟨ihchain, ihhead⟩ := ih (i + 1)
          (rem - calcEventDuration cfg slot.durationMinutes rem)
          (some (slot.start + 60 * calcEventDuration cfg slot.durationMinutes rem))
          hwfrest hpwrest
          (by intro x hx s hs; cases hx; exact hnew s hs)
        constructor
        · refine List.chain'_cons'.mpr ⟨?_, ihchain⟩
          intro b hb
          exact ihhead b hb _ rfl
        · intro e he x hx
          simp only [List.head?_cons, Option.some.injEq] at he
          subst he
          exact hgap x hx
      · exact ih (i + 1) rem le hwfrest hpwrest
          (fun x hx s hs => hle x hx s (List.mem_cons_of_mem _ hs))
      · exact ih (i + 1) rem le hwfrest hpwrest
          (fun x hx s hs => hle x hx s (List.mem_cons_of_mem _ hs))

lemma habitFallbackGo_chain (buffer reqDur : Int) :
    ∀ (l : List SlotD) (n : Nat) (le : Option Int),
      List.Chain' (fun a b : SlotD => a.stop + 60 * buffer ≤ b.start)
        (habitFallbackGo buffer reqDur n le l) ∧
      (∀ e, (habitFallbackGo buffer reqDur n le l).head? = some e →
        ∀ x, le = some x → x + 60 * buffer ≤ e.start) := by
  intro l
  induction l with
  | nil => intro n le; cases n <;> simp [habitFallbackGo]
  | cons slot rest ih =>
      intro n le
      cases n with
      | zero => simp [habitFallbackGo]
      | succ m =>
          simp only [habitFallbackGo]
          split_ifs with h1 h2
          · obtain ⟨ihc, ihh⟩ := ih m (some slot.stop)
            constructor
            · refine List.chain'_cons'.mpr ⟨?_, ihc⟩
              intro b hb
              exact ihh b hb slot.stop rfl
            · intro e he x hx
              simp only [List.head?_cons, Option.some.injEq] at he
              subst he
              rw [hx] at h1
              simp only [decide_eq_true_eq] at h1
              omega
          · exact ih (m + 1) le
          · exact ih (m + 1) le

/-- C3 (amended): consecutive events emitted by
`EventDistributor.distribute_events` — for well-formed input slots that are
non-overlapping in start order — and consecutive slots kept by the
*fallback* selection loop of `select_slots` in habit mode are separated by
at least the buffer (end-to-start).  Slots mapped directly from ranking
indices in habit mode are not buffer-checked and can violate the bound (see
the counterexample). -/
theorem C3_buffer_invariant (cfg : DistributorConfig) (slots : List TimeSlot)
    (cands : List SlotD) (target : Nat) (buffer req : Int)
    (hwf : ∀ s ∈ slots, s.start ≤ s.stop)
    (hsep : List.Pairwise (fun a b : TimeSlot => a.stop ≤ b.start)
      (List.insertionSort (fun a b : TimeSlot => a.start ≤ b.start) slots)) :
    List.Chain' (fun a b : ScheduledEvent =>
      a.endTime + 60 * cfg.minBreak ≤ b.startTime)
      (EventDistributor.distributeEvents cfg slots).1 ∧
    List.Chain' (fun a b : SlotD => a.stop + 60 * buffer ≤ b.start)
      (selectHabitFallback cands target buffer req) := by
  constructor
  · have hwfs : ∀ s ∈ List.insertionSort
        (fun a b : TimeSlot => a.start ≤ b.start) slots, s.start ≤ s.stop :=
      fun s hs => hwf s ((List.perm_insertionSort _ slots).mem_iff.mp hs)
    exact (distGo_chain cfg _ 0 cfg.totalMinutes none hwfs hsep
      (by intro x hx; cases hx)).1
  · exact (habitFallbackGo_chain buffer req (sortSlotsByStart cands) target none).1

/-- C3 counterexample: in habit mode, `select_slots` maps ranking-response
indices straight to slots with no buffer check.  With two back-to-back
hour slots, buffer 15 minutes and response indices `[1, 2]`, both slots are
selected and the gap between the consecutive selected events is zero. -/
theorem C3_buffer_invariant_cex :
    selectHabitSlots [⟨0, 3600, 60⟩, ⟨3600, 7200, 60⟩] [1, 2] 2 15 30 =
      [⟨0, 3600, 60⟩, ⟨3600, 7200, 60⟩] ∧
    ¬ ((3600 : Int) + 60 * 15 ≤ 3600) := ⟨by decide, by decide⟩

/-- Witness for `C3_buffer_invariant` on the Example-3 distributor
configuration and two concrete habit candidates. -/
theorem C3_buffer_invariant_witness :
    List.Chain' (fun a b : ScheduledEvent =>
      a.endTime + 60 * (10 : Int) ≤ b.startTime)
      (EventDistributor.distributeEvents ⟨100, 30, 45, 10⟩
        [⟨0, 3000⟩, ⟨4000, 7600⟩]).1 ∧
    List.Chain' (fun a b : SlotD => a.stop + 60 * (15 : Int) ≤ b.start)
      (selectHabitFallback [⟨0, 1800, 30⟩, ⟨7200, 9000, 30⟩] 2 15 30) :=
  C3_buffer_invariant ⟨100, 30, 45, 10⟩ [⟨0, 3000⟩, ⟨4000, 7600⟩]
    [⟨0, 1800, 30⟩, ⟨7200, 9000, 30⟩] 2 15 30
    (by intro s hs; fin_cases hs <;> decide) (by decide)

/-! ## C6: single-item proposal clamping and the mandatory fallback -/

/-- C6 (confirmed): (1) a ranking proposal whose start is in range but
whose end overruns the chosen free slot is clamped backward so the event
ends exactly at the slot end, provided the clamped start is not before the
slot start; (2,3) whenever the proposal is absent, out of range, or cannot
fit even after clamping (`validateTaskProposal` returns `none`),
`select_slots` runs the deterministic fallback — the fallback is never
skipped; (4) the fallback yields exactly the earliest start-ordered
candidate whose recorded duration meets the requirement and in which the
estimated duration fits. -/
theorem C6_single_item_selection :
    (∀ (cands : List SlotD) (idx startT est : Int) (fs : SlotD)
        (hpos : 0 ≤ idx - 1)
        (hlen : (idx - 1).toNat < (prepCandidates cands).length),
        fs = (prepCandidates cands).get ⟨(idx - 1).toNat, hlen⟩ →
        fs.start ≤ startT → fs.stop < startT + 60 * est →
        fs.start ≤ fs.stop - 60 * est →
        validateTaskProposal (prepCandidates cands) idx startT est =
          some ⟨fs.stop - 60 * est, fs.stop, est⟩) ∧
    (∀ (cands : List SlotD) (p : Int × Int) (est : Int),
        validateTaskProposal (prepCandidates cands) p.1 p.2 est = none →
        selectTaskSlot cands (some p) est =
          taskFallbackGo est est (sortSlotsByStart cands)) ∧
    (∀ (cands : List SlotD) (est : Int),
        selectTaskSlot cands none est =
          taskFallbackGo est est (sortSlotsByStart cands)) ∧
    (∀ (req est : Int) (l : List SlotD),
        taskFallbackGo req est l =
          ((l.find? fun s => decide (req ≤ s.durationMinutes) &&
              decide (s.start + 60 * est ≤ s.stop)).map
            fun s => (⟨s.start, s.start + 60 * est, est⟩ : SlotD)).toList) := by
  refine ⟨?_, ?_, ?_, ?_⟩
  · intro cands idx startT est fs hpos hlen hfs hstart hover hfit
    have hcond : 0 ≤ idx - 1 ∧ idx - 1 < ((prepCandidates cands).length : Int) :=
      ⟨hpos, by omega⟩
    have hget : ∀ p : (idx - 1).toNat < (prepCandidates cands).length,
        (prepCandidates cands).get ⟨(idx - 1).toNat, p⟩ = fs := by
      intro p; rw [hfs]
    simp only [validateTaskProposal]
    rw [dif_pos hcond]
    simp only [hget]
    rw [if_neg (not_lt.mpr hstart), if_pos (by omega : startT + 60 * est > fs.stop),
      if_neg (not_lt.mpr hfit)]
  · intro cands p est hv
    obtain ⟨p1, p2⟩ := p
    by_cases hemp : cands.isEmpty
    · have hnil : cands = [] := List.isEmpty_iff.mp hemp
      subst hnil
      simp [selectTaskSlot, sortSlotsByStart, List.insertionSort, taskFallbackGo]
    · simp only [selectTaskSlot, if_neg hemp]
      rw [hv]
  · intro cands est
    by_cases hemp : cands.isEmpty
    · have hnil : cands = [] := List.isEmpty_iff.mp hemp
      subst hnil
      simp [selectTaskSlot, sortSlotsByStart, List.insertionSort, taskFallbackGo]
    · simp only [selectTaskSlot, if_neg hemp]
  · intro req est l
    induction l with
    | nil => rfl
    | cons s rest ih =>
        by_cases hp : (decide (req ≤ s.durationMinutes) &&
            decide (s.start + 60 * est ≤ s.stop)) = true
        · rw [@List.find?_cons_of_pos _ (fun s => decide (req ≤ s.durationMinutes) &&
              decide (s.start + 60 * est ≤ s.stop)) s rest hp]
          simp only [Bool.and_eq_true, decide_eq_true_eq] at hp
          simp only [taskFallbackGo]
          rw [if_pos (by omega : s.durationMinutes ≥ req),
            if_neg (by omega : ¬ s.start + 60 * est > s.stop)]
          rfl
        · rw [@List.find?_cons_of_neg _ (fun s => decide (req ≤ s.durationMinutes) &&
              decide (s.start + 60 * est ≤ s.stop)) s rest hp]
          simp only [Bool.and_eq_true, decide_eq_true_eq, not_and_or, not_le] at hp
          simp only [taskFallbackGo]
          rcases hp with hp | hp
          · rw [if_neg (by omega : ¬ s.durationMinutes ≥ req)]
            exact ih
          · by_cases hd : s.durationMinutes ≥ req
            · rw [if_pos hd, if_pos (by omega : s.start + 60 * est > s.stop),
                if_pos (by omega : s.stop - 60 * est < s.start)]
              exact ih
            · rw [if_neg hd]
              exact ih

/-- Witness for `C6_single_item_selection`: a proposal overrunning a
two-hour slot by chosen start 6000 s is clamped to end exactly at the slot
end; an out-of-range index (5) falls back; the fallback equals the
earliest fitting candidate. -/
theorem C6_single_item_selection_witness :
    validateTaskProposal (prepCandidates [⟨0, 7200, 120⟩]) 1 6000 30 =
      some ⟨5400, 7200, 30⟩ ∧
    selectTaskSlot [⟨0, 7200, 120⟩] (some (5, 0)) 30 =
      taskFallbackGo 30 30 (sortSlotsByStart [⟨0, 7200, 120⟩]) ∧
    taskFallbackGo 30 30 [⟨0, 7200, 120⟩] =
      (((([⟨0, 7200, 120⟩] : List SlotD).find? fun s =>
          decide ((30 : Int) ≤ s.durationMinutes) &&
          decide (s.start + 60 * 30 ≤ s.stop)).map
        fun s => (⟨s.start, s.start + 60 * 30, 30⟩ : SlotD)).toList) :=
  ⟨C6_single_item_selection.1 [⟨0, 7200, 120⟩] 1 6000 30 ⟨0, 7200, 120⟩
      (by decide) (by decide) (by decide) (by decide) (by decide) (by decide),
    C6_single_item_selection.2.1 [⟨0, 7200, 120⟩] (5, 0) 30 (by decide),
    C6_single_item_selection.2.2.2 30 30 [⟨0, 7200, 120⟩]⟩

/-! ## C8: determinism of the pipeline -/

/-- C8 (amended): the scheduling pipeline is a deterministic function of
its *complete* inputs — busy periods, window, constraints *and* the
external ranking response (in the source also the wall clock backing
defaulted planning horizons): re-running with all of these equal yields an
identical result.  It is not a function of busy periods, window and
constraints alone (see the counterexample). -/
theorem C8_pipeline_determinism
    (b1 b2 : List (Int × Int)) (ws1 ws2 we1 we2 rd1 rd2 md1 md2 bf1 bf2 : Int)
    (pt1 pt2 : List (Int × Int)) (dw1 dw2 : List Int) (t1 t2 : Nat)
    (r1 r2 : List Int)
    (hb : b1 = b2) (hws : ws1 = ws2) (hwe : we1 = we2) (hrd : rd1 = rd2)
    (hmd : md1 = md2) (hbf : bf1 = bf2) (hpt : pt1 = pt2) (hdw : dw1 = dw2)
    (ht : t1 = t2) (hr : r1 = r2) :
    schedulePipeline b1 ws1 we1 rd1 md1 bf1 pt1 dw1 t1 r1 =
      schedulePipeline b2 ws2 we2 rd2 md2 bf2 pt2 dw2 t2 r2 := by
  subst hb hws hwe hrd hmd hbf hpt hdw ht hr
  rfl

/-- C8 counterexample: identical busy periods, window and constraints but
two different ranking responses (index 1 vs index 2) produce different
pipeline outputs, so the result is *not* a pure function of busy periods,
window and constraints alone — the external ranking call (an LLM invoked at
temperature 0.3) and the wall clock are hidden inputs. -/
theorem C8_pipeline_determinism_cex :
    schedulePipeline [(3600, 7200)] 0 10800 30 30 0 [] [] 1 [1] ≠
      schedulePipeline [(3600, 7200)] 0 10800 30 30 0 [] [] 1 [2] := by decide

/-- Witness for `C8_pipeline_determinism` at concrete equal inputs. -/
theorem C8_pipeline_determinism_witness :
    schedulePipeline [(3600, 7200)] 0 10800 30 30 0 [] [] 1 [1] =
      schedulePipeline [(3600, 7200)] 0 10800 30 30 0 [] [] 1 [1] :=
  C8_pipeline_determinism [(3600, 7200)] [(3600, 7200)] 0 0 10800 10800 30 30
    30 30 0 0 [] [] [] [] 1 1 [1] [1] rfl rfl rfl rfl rfl rfl rfl rfl rfl rfl

/-! ## C1: coverage of the free-time computation -/

lemma tsfSweep_bounds (we : Int) :
    ∀ (l : List (Int × Int)) (c : Int), (∀ p ∈ l, p.1 < we) →
      ∀ s ∈ tsfSweep 0 we c l, c ≤ s.start ∧ s.start < s.stop ∧ s.stop ≤ we := by
  intro l
  induction l with
  | nil =>
      intro c _ s hs
      simp only [tsfSweep] at hs
      split_ifs at hs with h
      · rcases List.mem_singleton.mp hs with rfl
        exact ⟨le_refl _, h.1, le_refl _⟩
      · simp at hs
  | cons q rest ih =>
      obtain ⟨bs, be⟩ := q
      intro c hl s hs
      simp only [tsfSweep] at hs
      rcases List.mem_append.mp hs with hs | hs
      · split_ifs at hs with h
        · rcases List.mem_singleton.mp hs with rfl
          exact ⟨le_refl _, h.1, le_of_lt (hl (bs, be) (List.mem_cons_self _ _))⟩
        · simp at hs
      · have hc' : c ≤ (if be > c then be else c) := by split_ifs with h <;> omega
        have hb := ih (if be > c then be else c)
          (fun q hq => hl q (List.mem_cons_of_mem _ hq)) s hs
        exact ⟨le_trans hc' hb.1, hb.2.1, hb.2.2⟩

lemma tsfSweep_pairwise (we : Int) :
    ∀ (l : List (Int × Int)) (c : Int), (∀ p ∈ l, p.1 < p.2 ∧ p.1 < we) →
      List.Pairwise (fun a b : TimeSlot => a.stop ≤ b.start) (tsfSweep 0 we c l) := by
  intro l
  induction l with
  | nil =>
      intro c _
      simp only [tsfSweep]
      split_ifs with h
      · exact List.pairwise_singleton _ _
      · exact List.Pairwise.nil
  | cons q rest ih =>
      obtain ⟨bs, be⟩ := q
      intro c hl
      have hlrest := fun q hq => hl q (List.mem_cons_of_mem _ hq)
      have hhead := hl (bs, be) (List.mem_cons_self _ _)
      obtain ⟨hh1, hh2⟩ := hhead
      simp only [tsfSweep]
      by_cases h : c < bs ∧ bs - c ≥ 60 * 0
      · rw [if_pos h, List.singleton_append]
        refine List.pairwise_cons.mpr ⟨?_, ih _ hlrest⟩
        intro s hs
        have hb := tsfSweep_bounds we rest (if be > c then be else c)
          (fun q hq => (hlrest q hq).2) s hs
        have hbs : bs ≤ (if be > c then be else c) := by
          obtain ⟨hcb, _⟩ := h
          split_ifs with h2 <;> omega
        show bs ≤ s.start
        omega
      · rw [if_neg h, List.nil_append]
        exact ih _ hlrest

lemma tsfSweep_busy_disjoint (we : Int) :
    ∀ (l : List (Int × Int)) (c : Int),
      List.Pairwise (fun a b : Int × Int => a.1 ≤ b.1) l →
      (∀ p ∈ l, p.1 < we) →
      ∀ s ∈ tsfSweep 0 we c l, ∀ p ∈ l, s.stop ≤ p.1 ∨ p.2 ≤ s.start := by
  intro l
  induction l with
  | nil => intro c _ _ s _ p hp; simp at hp
  | cons q rest ih =>
      obtain ⟨bs, be⟩ := q
      intro c hsort hl s hs p hp
      obtain ⟨hsorthead, hsortrest⟩ := List.pairwise_cons.mp hsort
      have hlrest := fun q hq => hl q (List.mem_cons_of_mem _ hq)
      simp only [tsfSweep] at hs
      rcases List.mem_append.mp hs with hs | hs
      · split_ifs at hs with h
        · rcases List.mem_singleton.mp hs with rfl
          rcases List.mem_cons.mp hp with rfl | hp
          · left; exact le_refl bs
          · left; exact hsorthead p hp
        · simp at hs
      · rcases List.mem_cons.mp hp with rfl | hp
        · right
          have hb := tsfSweep_bounds we rest (if be > c then be else c)
            (fun q hq => hlrest q hq) s hs
          have hbe : be ≤ (if be > c then be else c) := by
            split_ifs with h2 <;> omega
          show be ≤ s.start
          omega
        · exact ih _ hsortrest hlrest s hs p hp

lemma tsfSweep_cover (we : Int) :
    ∀ (l : List (Int × Int)) (c x : Int), c ≤ x → x < we →
      (∃ s ∈ tsfSweep 0 we c l, s.start ≤ x ∧ x < s.stop) ∨
      (∃ p ∈ l, p.1 ≤ x ∧ x < p.2) := by
  intro l
  induction l with
  | nil =>
      intro c x hcx hxe
      left
      refine ⟨⟨c, we⟩, ?_, hcx, hxe⟩
      simp only [tsfSweep]
      rw [if_pos ⟨by omega, by omega⟩]
      exact List.mem_singleton.mpr rfl
  | cons q rest ih =>
      obtain ⟨bs, be⟩ := q
      intro c x hcx hxe
      by_cases hxbs : x < bs
      · left
        refine ⟨⟨c, bs⟩, ?_, hcx, hxbs⟩
        simp only [tsfSweep]
        refine List.mem_append.mpr (Or.inl ?_)
        rw [if_pos ⟨by omega, by omega⟩]
        exact List.mem_singleton.mpr rfl
      · by_cases hxbe : x < be
        · exact Or.inr ⟨(bs, be), List.mem_cons_self _ _, by omega, hxbe⟩
        · have hc' : (if be > c then be else c) ≤ x := by split_ifs with h <;> omega
          rcases ih (if be > c then be else c) x hc' hxe with
            ⟨s, hsmem, hsx⟩ | ⟨p, hpmem, hpx⟩
          · refine Or.inl ⟨s, ?_, hsx⟩
            simp only [tsfSweep]
            exact List.mem_append.mpr (Or.inr hsmem)
          · exact Or.inr ⟨p, List.mem_cons_of_mem _ hpmem, hpx⟩

/-- C1 (amended, proved for `TimeSlotFinder.find_free_slots` with zero
minimum duration and no preferred windows): for every well-formed busy list
and nonempty window, the returned slots are pairwise non-overlapping, each
lies fully inside the window, each is disjoint from every busy period
clipped to the window, the clipped busy periods lie inside the window, and
every instant of the window lies in a free slot or in a clipped busy
period — i.e. the slots plus the clipped busy periods cover the window
exactly, with no gaps and no double-counting.  `compute_free_slots` does
*not* satisfy this (see the counterexample). -/
theorem C1_find_free_slots_coverage (events : List (Int × Int)) (ws we : Int)
    (hwin : ws < we) (hev : ∀ p ∈ events, p.1 < p.2) :
    (∀ s ∈ TimeSlotFinder.findFreeSlots events ws we [] 0,
        ws ≤ s.start ∧ s.start < s.stop ∧ s.stop ≤ we) ∧
    List.Pairwise (fun a b : TimeSlot => a.stop ≤ b.start)
      (TimeSlotFinder.findFreeSlots events ws we [] 0) ∧
    (∀ s ∈ TimeSlotFinder.findFreeSlots events ws we [] 0,
        ∀ p ∈ parseEventsToIntervals events ws we, s.stop ≤ p.1 ∨ p.2 ≤ s.start) ∧
    (∀ p ∈ parseEventsToIntervals events ws we,
        ws ≤ p.1 ∧ p.1 < p.2 ∧ p.2 ≤ we) ∧
    (∀ x : Int, ws ≤ x → x < we →
        (∃ s ∈ TimeSlotFinder.findFreeSlots events ws we [] 0,
            s.start ≤ x ∧ x < s.stop) ∨
        (∃ p ∈ parseEventsToIntervals events ws we, p.1 ≤ x ∧ x < p.2)) := by
  have hclip : ∀ p ∈ parseEventsToIntervals events ws we,
      ws ≤ p.1 ∧ p.1 < p.2 ∧ p.2 ≤ we := by
    intro p hp
    simp only [parseEventsToIntervals, List.mem_map, List.mem_filter] at hp
    obtain ⟨q, ⟨hqmem, hqf⟩, rfl⟩ := hp
    simp only [Bool.and_eq_true, decide_eq_true_eq] at hqf
    have hq := hev q hqmem
    refine ⟨le_max_right _ _, ?_, min_le_right _ _⟩
    simp only
    omega
  have hperm := List.perm_insertionSort (fun a b : Int × Int => a.1 ≤ b.1)
    (parseEventsToIntervals events ws we)
  have hclips : ∀ p ∈ sortIntervalsByStart (parseEventsToIntervals events ws we),
      ws ≤ p.1 ∧ p.1 < p.2 ∧ p.2 ≤ we := by
    intro p hp
    exact hclip p (hperm.mem_iff.mp hp)
  haveI hts : IsTotal (Int × Int) (fun a b : Int × Int => a.1 ≤ b.1) :=
    ⟨fun a b => le_total a.1 b.1⟩
  haveI htr : IsTrans (Int × Int) (fun a b : Int × Int => a.1 ≤ b.1) :=
    ⟨fun a b c h1 h2 => le_trans h1 h2⟩
  have hsorted : List.Pairwise (fun a b : Int × Int => a.1 ≤ b.1)
      (sortIntervalsByStart (parseEventsToIntervals events ws we)) :=
    List.sorted_insertionSort _ _
  have hfun : TimeSlotFinder.findFreeSlots events ws we [] 0 =
      tsfSweep 0 we ws (sortIntervalsByStart (parseEventsToIntervals events ws we)) :=
    rfl
  refine ⟨?_, ?_, ?_, hclip, ?_⟩
  · intro s hs
    rw [hfun] at hs
    have := tsfSweep_bounds we _ ws (fun p hp => by have := hclips p hp; omega) s hs
    exact ⟨le_trans (le_refl ws) this.1, this.2.1, this.2.2⟩
  · rw [hfun]
    exact tsfSweep_pairwise we _ ws (fun p hp => by have := hclips p hp; omega)
  · intro s hs p hp
    rw [hfun] at hs
    exact tsfSweep_busy_disjoint we _ ws hsorted
      (fun q hq => by have := hclips q hq; omega) s hs p (hperm.mem_iff.mpr hp)
  · intro x hx hxe
    rcases tsfSweep_cover we
        (sortIntervalsByStart (parseEventsToIntervals events ws we)) ws x hx hxe with
      ⟨s, hsmem, hsx⟩ | ⟨p, hpmem, hpx⟩
    · exact Or.inl ⟨s, by rw [hfun]; exact hsmem, hsx⟩
    · exact Or.inr ⟨p, hperm.mem_iff.mp hpmem, hpx⟩

/-- C1 counterexample: `compute_free_slots` with busy `[10:00, 10:30)` and
window `[09:30, 12:00)` emits a first slot starting at 09:00 — outside the
window — because the cursor is floored to the hour and slots are never
clipped to the window, so the claimed coverage property fails for it. -/
theorem C1_compute_free_slots_coverage_cex :
    computeFreeSlots [(36000, 37800)] 34200 43200 =
      [⟨32400, 36000, 60⟩, ⟨37800, 43200, 90⟩] ∧
    ¬ ((34200 : Int) ≤ 32400) := ⟨by decide, by decide⟩

/-- Witness for `C1_find_free_slots_coverage` on the spec's Example 1
(window `[09:00, 17:00)`, busy `[10:00, 10:30)` and `[12:00, 13:00)`),
instantiating the coverage disjunction at the instant 45000 s (12:30,
inside the second busy period). -/
theorem C1_find_free_slots_coverage_witness :
    (∃ s ∈ TimeSlotFinder.findFreeSlots [(36000, 37800), (43200, 46800)]
        32400 61200 [] 0, s.start ≤ 45000 ∧ 45000 < s.stop) ∨
    (∃ p ∈ parseEventsToIntervals [(36000, 37800), (43200, 46800)] 32400 61200,
        p.1 ≤ 45000 ∧ 45000 < p.2) :=
  (C1_find_free_slots_coverage [(36000, 37800), (43200, 46800)] 32400 61200
    (by decide) (by intro p hp; fin_cases hp <;> decide)).2.2.2.2 45000
    (by decide) (by decide)

end HarmonyPlanner
